import Mathlib

/-!
Shallow embedding of the `zoom_reset` command-line tool
(`src/zoom_reset/cli.py`) and proofs about its specified behaviour.

Strings handled by the parsers are modelled as `List Char`; filesystem
paths as explicit component lists; the filesystem as an association list
of files plus a list of explicitly created directories.  The clock is an
explicit input.  Python exceptions are modelled with `Except`.
-/

namespace ZoomReset

/-- The characters Python's `str.strip` / `str.split(None)` treat as
whitespace (ASCII range; the parsers here only meet ASCII text). -/
def isPyWS (c : Char) : Bool :=
  c = ' ' || c = '\t' || c = '\n' || c = '\r' || c = '\x0b' || c = '\x0c'

/-- Model of `str.strip()`: drop leading and trailing whitespace. -/
def stripWS (l : List Char) : List Char :=
  ((l.dropWhile isPyWS).reverse.dropWhile isPyWS).reverse

/-- ASCII lowering, as `str.lower()` acts on the ASCII text met here. -/
def lowerStr (l : List Char) : List Char := l.map Char.toLower

/-- Python's `needle in haystack` substring test. -/
def containsSeq (needle hay : List Char) : Bool := decide (needle <:+: hay)

/-- The target-name needle `"zoom"`. -/
def zoomL : List Char := ['z', 'o', 'o', 'm']

/-- Model of `str.splitlines()` restricted to the line terminators that occur in
process-listing text: `"\n"`, `"\r"`, `"\r\n"`.  A trailing terminator
does not produce a final empty line, and the empty string has no lines. -/
def pylinesGo (acc : List Char) : List Char → List (List Char)
  | [] => [acc.reverse]
  | '\r' :: '\n' :: rest =>
      acc.reverse :: (if rest.isEmpty then [] else pylinesGo [] rest)
  | '\n' :: rest =>
      acc.reverse :: (if rest.isEmpty then [] else pylinesGo [] rest)
  | '\r' :: rest =>
      acc.reverse :: (if rest.isEmpty then [] else pylinesGo [] rest)
  | c :: rest => pylinesGo (c :: acc) rest

def pylines (s : List Char) : List (List Char) :=
  if s.isEmpty then [] else pylinesGo [] s

/-- Digit run of a Python integer literal after the sign: a digit, then
digits with single interior underscores (as accepted by `int(...)`). -/
def pyDigitsGo (acc : Nat) : List Char → Option Nat
  | [] => some acc
  | ['_'] => none
  | '_' :: c :: rest =>
      if c.isDigit then pyDigitsGo (10 * acc + (c.toNat - 48)) rest else none
  | c :: rest =>
      if c.isDigit then pyDigitsGo (10 * acc + (c.toNat - 48)) rest else none

def pyDigits : List Char → Option Nat
  | [] => none
  | c :: rest => if c.isDigit then pyDigitsGo (c.toNat - 48) rest else none

/-- Python `int(s)`: optional surrounding whitespace, an optional sign,
then a digit run (ASCII digits; `int` raising `ValueError` is `none`). -/
def pyInt? (s : List Char) : Option Int :=
  match stripWS s with
  | '+' :: rest => (pyDigits rest).map Int.ofNat
  | '-' :: rest => (pyDigits rest).map (fun n => -(n : Int))
  | t => (pyDigits t).map Int.ofNat

/-- Drop leading whitespace (`str.split(None)` field separation). -/
def dropWS : List Char → List Char
  | [] => []
  | c :: r => if isPyWS c then dropWS r else c :: r

/-- Take one whitespace-delimited field; returns (field, rest). -/
def takeField : List Char → List Char × List Char
  | [] => ([], [])
  | c :: r =>
      if isPyWS c then ([], c :: r)
      else
        let (f, rest) := takeField r
        (c :: f, rest)

/-- Python `s.split(None, 2)`: at most three whitespace-delimited fields,
the third being the untouched remainder after skipping its leading
whitespace. -/
def splitWS2 (s : List Char) : List (List Char) :=
  let s1 := dropWS s
  if s1.isEmpty then []
  else
    let (f1, r1) := takeField s1
    let r1' := dropWS r1
    if r1'.isEmpty then [f1]
    else
      let (f2, r2) := takeField r1'
      let r2' := dropWS r2
      if r2'.isEmpty then [f1, f2] else [f1, f2, r2']

/-- Model of `ProcessInfo` dataclass: pid, short name, optional command line. -/
structure ProcessInfo where
  pid : Int
  name : List Char
  command : Option (List Char) := none
deriving DecidableEq, Repr

/-- One iteration of the `parse_ps_output` loop: split the stripped line
into at most three fields, skip it unless the first parses with `int`,
keep it when `"zoom"` occurs in the lowered space-join of the rest. -/
def psLine (line : List Char) : Option ProcessInfo :=
  match splitWS2 (stripWS line) with
  | p0 :: p1 :: rest =>
      match pyInt? p0 with
      | none => none
      | some pid =>
          let command := rest.head?
          let text := lowerStr (List.intercalate [' '] (p1 :: rest))
          if containsSeq zoomL text then
            some { pid := pid, name := p1, command := command }
          else none
  | _ => none

/-- Model of `parse_ps_output`: the loop appends matches in original line order. -/
def parse_ps_output (output : List Char) : List ProcessInfo :=
  (pylines output).filterMap psLine

/-! Section: Model of `csv.reader` (default dialect) over `output.splitlines()`

States of the CPython `_csv` record parser that are reachable with the
default dialect (delimiter `,`, quote char `"`, doubling, non-strict):
at record start, at field start, inside an unquoted field, inside a
quoted field, and just after a quote inside a quoted field.  A record
ends only at end of line; a line ending inside a quoted field continues
into the next line (the fragments are joined directly, the supplied
lines carrying no terminator). -/
inductive CsvSt
  | startRecord
  | startField
  | inField
  | inQuoted
  | quoteInQuoted
deriving DecidableEq, Repr

/-- Run the record automaton over one line.  `Sum.inl` is a finished
row; `Sum.inr (row, field)` means the line ended inside a quoted field
and the record continues on the next line. -/
def csvLine (st : CsvSt) (row : List (List Char)) (field : List Char) :
    List Char → Sum (List (List Char)) (List (List Char) × List Char)
  | [] =>
      match st with
      | .startRecord => Sum.inl []
      | .startField => Sum.inl (row ++ [field])
      | .inField => Sum.inl (row ++ [field])
      | .inQuoted => Sum.inr (row, field)
      | .quoteInQuoted => Sum.inl (row ++ [field])
  | c :: rest =>
      match st with
      | .startRecord =>
          if c = '"' then csvLine .inQuoted row field rest
          else if c = ',' then csvLine .startField (row ++ [[]]) [] rest
          else csvLine .inField row [c] rest
      | .startField =>
          if c = '"' then csvLine .inQuoted row field rest
          else if c = ',' then csvLine .startField (row ++ [[]]) [] rest
          else csvLine .inField row [c] rest
      | .inField =>
          if c = ',' then csvLine .startField (row ++ [field]) [] rest
          else csvLine .inField row (field ++ [c]) rest
      | .inQuoted =>
          if c = '"' then csvLine .quoteInQuoted row field rest
          else csvLine .inQuoted row (field ++ [c]) rest
      | .quoteInQuoted =>
          if c = '"' then csvLine .inQuoted row (field ++ ['"']) rest
          else if c = ',' then csvLine .startField (row ++ [field]) [] rest
          else csvLine .inField row (field ++ [c]) rest

/-- Feed the lines to the record parser; a pending quoted field left at
end of input yields a final record, as the reader returns it. -/
def csvRowsGo : Option (List (List Char) × List Char) → List (List Char) →
    List (List (List Char))
  | none, [] => []
  | some (row, field), [] => [row ++ [field]]
  | none, line :: rest =>
      match csvLine .startRecord [] [] line with
      | .inl row => row :: csvRowsGo none rest
      | .inr carry => csvRowsGo (some carry) rest
  | some (row, field), line :: rest =>
      match csvLine .inQuoted row field line with
      | .inl r => r :: csvRowsGo none rest
      | .inr carry => csvRowsGo (some carry) rest

/-- Model of `csv.reader(output.splitlines())` as a list of rows of fields. -/
def csvRows (output : List Char) : List (List (List Char)) :=
  csvRowsGo none (pylines output)

/-- One iteration of the `parse_tasklist_output` loop: skip empty rows,
strip the name field, skip when empty or without `"zoom"`, skip when the
id field is missing or not an integer. -/
def taskRow (row : List (List Char)) : Option ProcessInfo :=
  match row with
  | [] => none
  | r0 :: rest =>
      let name := stripWS r0
      if name.isEmpty then none
      else if ¬ containsSeq zoomL (lowerStr name) then none
      else
        match rest with
        | [] => none
        | r1 :: _ =>
            match pyInt? r1 with
            | none => none
            | some pid => some { pid := pid, name := name }

/-- Model of `parse_tasklist_output`: matches appended in row order. -/
def parse_tasklist_output (output : List Char) : List ProcessInfo :=
  (csvRows output).filterMap taskRow

/-! Section: Paths and the filesystem -/

/-- Model of `pathlib` path: an anchor flag and the component list (components
are non-empty and slash-free for every path the tool builds). -/
structure PyPath where
  absolute : Bool
  comps : List String
deriving DecidableEq, Repr

/-- Split a character list on `'/'`. -/
def splitSlashGo (acc : List Char) : List Char → List (List Char)
  | [] => [acc.reverse]
  | '/' :: rest => acc.reverse :: splitSlashGo [] rest
  | c :: rest => splitSlashGo (c :: acc) rest

/-- Model of `Path(s)` for a POSIX-style string: anchored iff it starts with a
slash; empty components (repeated or trailing slashes) are dropped, as
`pathlib` normalises them away. -/
def PyPath.ofString (s : String) : PyPath :=
  { absolute := (match s.toList with | '/' :: _ => true | _ => false),
    comps := ((splitSlashGo [] s.toList).filter (· ≠ [])).map
      (fun l => String.mk l) }

/-- Model of `p / name` for a single plain name; joining the empty string leaves
the path unchanged, as `pathlib` ignores empty parts. -/
def PyPath.join (p : PyPath) (name : String) : PyPath :=
  if name = "" then p else { p with comps := p.comps ++ [name] }

/-- Model of `str(path)`. -/
def PyPath.toString (p : PyPath) : String :=
  if p.comps.isEmpty then (if p.absolute then "/" else ".")
  else (if p.absolute then "/" else "") ++ String.intercalate "/" p.comps

/-- Model of `path.name`: the final component (empty for the root). -/
def PyPath.name (p : PyPath) : String := p.comps.getLast?.getD ""

/-- Model of `p` is `q` or an ancestor of `q`. -/
def PyPath.isPrefixOfP (p q : PyPath) : Bool :=
  p.absolute == q.absolute && p.comps.isPrefixOf q.comps

/-- The filesystem: files with their text content, plus the directories
that were explicitly created (an entry's ancestors exist implicitly). -/
structure FS where
  files : List (PyPath × String)
  dirs : List PyPath
deriving DecidableEq, Repr

/-- Model of `path.exists()`: an explicitly created directory, a file, or an
ancestor of a file. -/
def FS.pathExists (fs : FS) (p : PyPath) : Bool :=
  fs.dirs.contains p || fs.files.any (fun f => p.isPrefixOfP f.1)

/-- Append an element unless already present (`_append_unique`, and the
insertion step of `mkdir`). -/
def appendUnique [DecidableEq α] (xs : List α) (x : α) : List α :=
  if x ∈ xs then xs else xs ++ [x]

/-- The proper-ancestor chain of `p` down to `p` itself (excluding the
anchor, which always exists). -/
def PyPath.ancestors (p : PyPath) : List PyPath :=
  (List.range p.comps.length).map
    (fun i => { absolute := p.absolute, comps := p.comps.take (i + 1) })

/-- Model of `path.mkdir(parents=True, exist_ok=True)`: record `p` and every
missing ancestor; never fails. -/
def FS.mkdirP (fs : FS) (p : PyPath) : FS :=
  { fs with dirs := p.ancestors.foldl appendUnique fs.dirs }

/-- Rewrite `q` under the rename of `src` to `dst`. -/
def replacePrefix (src dst q : PyPath) : PyPath :=
  if src.isPrefixOfP q then
    { absolute := dst.absolute, comps := dst.comps ++ q.comps.drop src.comps.length }
  else q

/-- Model of `shutil.move(src, dst)` for a destination that does not yet exist:
a same-volume rename of the whole subtree. -/
def FS.move (fs : FS) (src dst : PyPath) : FS :=
  { files := fs.files.map (fun f => (replacePrefix src dst f.1, f.2)),
    dirs := fs.dirs.map (replacePrefix src dst) }

/-! Section: Path catalog -/

/-- The two fatal error kinds of the tool: `UnsupportedSystemError` and
`subprocess.CalledProcessError` from the listing command. -/
inductive ZoomErr
  | unsupported (system : String)
  | listingFailed
deriving DecidableEq, Repr

/-- Model of `SUPPORTED_SYSTEMS` mapping of `platform.system()` names. -/
def SUPPORTED_SYSTEMS : List (String × String) :=
  [("Windows", "windows"), ("Darwin", "macos"), ("Linux", "linux")]

/-- Model of `detect_system` on the raw `platform.system()` name. -/
def detect_system (raw_name : String) : Except ZoomErr String :=
  match SUPPORTED_SYSTEMS.lookup raw_name with
  | some s => Except.ok s
  | none => Except.error (ZoomErr.unsupported raw_name)

/-- Model of `os.environ` modelled as an association list. -/
def envGet (env : List (String × String)) (key : String) : Option String :=
  env.lookup key

/-- Model of `zoom_paths`: the per-platform catalog of Zoom state paths, built
with `_append_unique`, raising on any other platform name.  It takes no
filesystem and no clock: it is pure in its three arguments. -/
def zoom_paths (system_name : String) (env : List (String × String))
    (home : PyPath) : Except ZoomErr (List PyPath) :=
  if system_name = "windows" then
    let appdata :=
      match envGet env "APPDATA" with
      | some s => PyPath.ofString s
      | none => (home.join "AppData").join "Roaming"
    let localappdata :=
      match envGet env "LOCALAPPDATA" with
      | some s => PyPath.ofString s
      | none => (home.join "AppData").join "Local"
    Except.ok
      ([appdata.join "Zoom",
        localappdata.join "Zoom",
        appdata.join "zoom.us",
        localappdata.join "zoom.us",
        localappdata.join "ZoomOpener",
        (localappdata.join "Temp").join "zoom"].foldl appendUnique [])
  else if system_name = "macos" then
    let base := home.join "Library"
    Except.ok
      ([(base.join "Application Support").join "zoom.us",
        (base.join "Application Support").join "ZoomOpener",
        (base.join "Preferences").join "us.zoom.xos.plist",
        (base.join "Caches").join "us.zoom.xos",
        (base.join "Logs").join "zoom.us",
        (base.join "WebKit").join "us.zoom.xos",
        (base.join "Cookies").join "us.zoom.xos.binarycookies"].foldl
          appendUnique [])
  else if system_name = "linux" then
    Except.ok
      ([(home.join ".config").join "zoom",
        (home.join ".cache").join "zoom",
        home.join ".zoom",
        ((home.join ".var").join "app").join "us.zoom.Zoom",
        (home.join ".cache").join "ZoomOpener"].foldl appendUnique [])
  else Except.error (ZoomErr.unsupported system_name)

/-! Section: Clock, backup root and backup transaction -/

/-- The wall clock at the moment `dt.datetime.now()` is read. -/
structure Clock where
  year : Nat
  month : Nat
  day : Nat
  hour : Nat
  minute : Nat
  second : Nat
deriving DecidableEq, Repr

/-- Model of `strftime` zero-padded two-digit field. -/
def pad2 (n : Nat) : String := if n < 10 then "0" ++ toString n else toString n

/-- Model of `strftime` zero-padded four-digit field. -/
def pad4 (n : Nat) : String :=
  if n < 10 then "000" ++ toString n
  else if n < 100 then "00" ++ toString n
  else if n < 1000 then "0" ++ toString n
  else toString n

/-- Model of `now().strftime("%H%M%S")`. -/
def hmsStamp (c : Clock) : String := pad2 c.hour ++ pad2 c.minute ++ pad2 c.second

/-- Model of `now().strftime("%Y%m%d-%H%M%S")`. -/
def fullStamp (c : Clock) : String :=
  pad4 c.year ++ pad2 c.month ++ pad2 c.day ++ "-" ++ hmsStamp c

/-- Model of `ensure_backup_root`: default to `~/.zoom-reset-backups`, create it
(and parents), return it. -/
def ensure_backup_root (arg : Option PyPath) (home : PyPath) (fs : FS) :
    PyPath × FS :=
  let path := arg.getD (home.join ".zoom-reset-backups")
  (path, fs.mkdirP path)

/-- Model of `timestamped_backup_dir`: the `"%Y%m%d-%H%M%S"`-named subdirectory
of `root`, created with `exist_ok=True` (so it never fails, and an
already existing directory of the same second is simply reused). -/
def timestamped_backup_dir (root : PyPath) (clock : Clock) (fs : FS) :
    PyPath × FS :=
  let backup_dir := root.join (fullStamp clock)
  (backup_dir, fs.mkdirP backup_dir)

/-- The status lines the tool prints, one constructor per `print`. -/
inductive Msg
  | detected (system : String)
  | foundProcesses (n : Nat)
  | noProcesses
  | skippingKill
  | wouldTerminate (pid : Int) (name : List Char)
  | terminated (pid : Int) (name : List Char)
  | notFoundSkipping (pid : Int)
  | permissionDenied (pid : Int) (exc : String)
  | wouldMove (target destination : PyPath)
  | moving (target destination : PyPath)
  | resetComplete
deriving DecidableEq, Repr

/-- Model of `backup_and_remove`: no-op for a missing target; destination is
`backup_root / target.name`, disambiguated by re-parsing
`f"{destination}-{HHMMSS}"` when it already exists; dry run only
reports; live mode renames the subtree. -/
def backup_and_remove (target backup_root : PyPath) (clock : Clock)
    (dry_run : Bool) (fs : FS) : FS × List Msg :=
  if ¬ fs.pathExists target then (fs, [])
  else
    let destination := backup_root.join target.name
    let destination :=
      if fs.pathExists destination then
        PyPath.ofString (destination.toString ++ "-" ++ hmsStamp clock)
      else destination
    if dry_run then (fs, [Msg.wouldMove target destination])
    else (fs.move target destination, [Msg.moving target destination])

/-! Section: Process terminator -/

/-- Outcome of the `os.kill(pid, SIGTERM)` request: delivered, or one of
the two exceptions the code handles. -/
inductive KillOutcome
  | ok
  | notFound
  | permDenied (exc : String)
deriving DecidableEq, Repr

/-- Model of `kill_processes`: in input order; dry run only reports; live mode
requests termination of every record, turning `ProcessLookupError` and
`PermissionError` into reports and continuing.  Returns the reports and
the pids for which `os.kill` was invoked. -/
def kill_processes (procs : List ProcessInfo) (dry_run : Bool)
    (outcome : Int → KillOutcome) : List Msg × List Int :=
  match procs with
  | [] => ([], [])
  | proc :: rest =>
      let (msgs, sent) := kill_processes rest dry_run outcome
      if dry_run then (Msg.wouldTerminate proc.pid proc.name :: msgs, sent)
      else
        match outcome proc.pid with
        | .ok => (Msg.terminated proc.pid proc.name :: msgs, proc.pid :: sent)
        | .notFound => (Msg.notFoundSkipping proc.pid :: msgs, proc.pid :: sent)
        | .permDenied e =>
            (Msg.permissionDenied proc.pid e :: msgs, proc.pid :: sent)

/-! Section: Orchestrator -/

/-- The ambient machine state an invocation runs against. -/
structure Config where
  /-- raw `platform.system()` name -/
  platformRaw : String
  /-- text produced by the process-listing command -/
  listing : List Char
  /-- the listing command itself fails (`CalledProcessError`) -/
  listingFails : Bool
  /-- outcome of a termination request per pid -/
  killOutcome : Int → KillOutcome
  /-- Model of `os.environ` -/
  env : List (String × String)
  /-- Model of `Path.home()` -/
  home : PyPath
  /-- Model of `dt.datetime.now()` (the run is fast; one reading serves it) -/
  clock : Clock

/-- Result of a run: the success or the propagated exception, the final
filesystem, the reports, and the pids `os.kill` was invoked on. -/
structure RunResult where
  result : Except ZoomErr Unit
  fs : FS
  msgs : List Msg
  attempts : List Int
deriving Repr

/-- Whether a run result is a success. -/
def exceptOk (e : Except ZoomErr Unit) : Bool :=
  match e with
  | .ok _ => true
  | .error _ => false

/-- Model of `list_zoom_processes`: dispatch to the right parser, or propagate
the listing command's failure. -/
def list_zoom_processes (system_name : String) (cfg : Config) :
    Except ZoomErr (List ProcessInfo) :=
  if cfg.listingFails then Except.error ZoomErr.listingFailed
  else if system_name = "windows" then
    Except.ok (parse_tasklist_output cfg.listing)
  else Except.ok (parse_ps_output cfg.listing)

/-- The process phase of `perform_reset`: skipped entirely, or list the
processes (propagating the listing failure) and kill any found. -/
def killPhase (cfg : Config) (system_name : String) (dry_run : Bool)
    (skip_process_kill : Bool) : Except ZoomErr (List Msg × List Int) :=
  if skip_process_kill then Except.ok ([Msg.skippingKill], [])
  else
    match list_zoom_processes system_name cfg with
    | .error e => .error e
    | .ok processes =>
        if processes.isEmpty then Except.ok ([Msg.noProcesses], [])
        else
          let (kmsgs, sent) :=
            kill_processes processes dry_run cfg.killOutcome
          Except.ok (Msg.foundProcesses processes.length :: kmsgs, sent)

/-- The `for path in targets` loop of `perform_reset`. -/
def backupLoop (targets : List PyPath) (backup_dir : PyPath)
    (clock : Clock) (dry_run : Bool) (acc : FS × List Msg) :
    FS × List Msg :=
  targets.foldl
    (fun acc t =>
      let (fs', ms) := backup_and_remove t backup_dir clock dry_run acc.1
      (fs', acc.2 ++ ms))
    acc

/-- Model of `perform_reset`: detect the platform, optionally list and terminate
processes, create the backup root and the timestamped backup directory,
then run `backup_and_remove` over the catalog. -/
def perform_reset (cfg : Config) (dry_run : Bool)
    (backup_root : Option PyPath) (skip_process_kill : Bool) (fs : FS) :
    RunResult :=
  match detect_system cfg.platformRaw with
  | .error e => ⟨.error e, fs, [], []⟩
  | .ok system_name =>
    let m0 := [Msg.detected system_name]
    match killPhase cfg system_name dry_run skip_process_kill with
    | .error e => ⟨.error e, fs, m0, []⟩
    | .ok (killMsgs, attempts) =>
      let (root, fs1) := ensure_backup_root backup_root cfg.home fs
      let (backup_dir, fs2) := timestamped_backup_dir root cfg.clock fs1
      match zoom_paths system_name cfg.env cfg.home with
      | .error e => ⟨.error e, fs2, m0 ++ killMsgs, attempts⟩
      | .ok targets =>
        let (fs3, bmsgs) :=
          backupLoop targets backup_dir cfg.clock dry_run (fs2, [])
        ⟨.ok (), fs3, m0 ++ killMsgs ++ bmsgs ++ [Msg.resetComplete],
         attempts⟩

/-- Model of `main`: run `perform_reset` with the three flags; the two fatal
exceptions are routed to `parser.error`, which exits with code 2; a
normal return exits with code 0. -/
def main (cfg : Config) (dry_run : Bool) (backup_dir : Option PyPath)
    (skip_kill : Bool) (fs : FS) : Nat × RunResult :=
  let r := perform_reset cfg dry_run backup_dir skip_kill fs
  match r.result with
  | .ok _ => (0, r)
  | .error _ => (2, r)

/-! Section: Specification-side definitions and concrete fixtures -/

/-- Specification-side reading of the tasklist contract: a row yields a
record iff the name field (field 0) is non-empty, contains `"zoom"`
case-insensitively, and the id field (field 1) is present and parses as
an integer.  Stated on the raw name field; compared against `taskRow`,
which strips the name before testing. -/
def taskRecordSpec (row : List (List Char)) : Option ProcessInfo :=
  match row with
  | nameF :: idF :: _ =>
      if nameF ≠ [] ∧ containsSeq zoomL (lowerStr nameF) = true then
        (pyInt? idF).map (fun pid => { pid := pid, name := stripWS nameF })
      else none
  | _ => none

/-- A fixed home directory for the concrete catalog tables. -/
def homeTester : PyPath := ⟨true, ["home", "u"]⟩

/-- The windows override environment of the end-to-end scenario. -/
def winEnv : List (String × String) :=
  [("APPDATA", "/tmp/roam"), ("LOCALAPPDATA", "/tmp/local")]

/-- A machine configuration for concrete runs: Linux, empty listing. -/
def cfgLinux : Config :=
  { platformRaw := "Linux", listing := [], listingFails := false,
    killOutcome := fun _ => KillOutcome.ok, env := [], home := homeTester,
    clock := ⟨2024, 1, 31, 23, 59, 1⟩ }

/-- The empty filesystem. -/
def fsEmpty : FS := ⟨[], []⟩

/-! Section: Helper lemmas -/

theorem appendUnique_ne_nil [DecidableEq α] (xs : List α) (x : α) :
    appendUnique xs x ≠ [] := by
  unfold appendUnique
  split
  · rename_i h
    intro hnil
    subst hnil
    exact absurd h (List.not_mem_nil x)
  · simp

theorem mem_appendUnique_of_mem [DecidableEq α] {xs : List α} {a : α}
    (x : α) (h : a ∈ xs) : a ∈ appendUnique xs x := by
  unfold appendUnique
  split
  · exact h
  · exact List.mem_append_left _ h

theorem mem_appendUnique_self [DecidableEq α] (xs : List α) (x : α) :
    x ∈ appendUnique xs x := by
  unfold appendUnique
  split
  · assumption
  · exact List.mem_append_right _ (List.mem_singleton.mpr rfl)

theorem appendUnique_eq_of_mem [DecidableEq α] {xs : List α} {x : α}
    (h : x ∈ xs) : appendUnique xs x = xs := by
  unfold appendUnique
  exact if_pos h

theorem nodup_appendUnique [DecidableEq α] {xs : List α} (x : α)
    (h : xs.Nodup) : (appendUnique xs x).Nodup := by
  unfold appendUnique
  split
  · exact h
  · rename_i hx
    simp [List.nodup_append, h, hx]

theorem mem_foldl_appendUnique_of_mem [DecidableEq α] {a : α} :
    ∀ (l : List α) (acc : List α), a ∈ acc → a ∈ l.foldl appendUnique acc
  | [], _, h => h
  | x :: xs, acc, h =>
      mem_foldl_appendUnique_of_mem xs (appendUnique acc x)
        (mem_appendUnique_of_mem x h)

theorem mem_foldl_appendUnique_self [DecidableEq α] {a : α} :
    ∀ (l : List α) (acc : List α), a ∈ l → a ∈ l.foldl appendUnique acc
  | x :: xs, acc, h => by
      rcases List.mem_cons.mp h with h | h
      · subst h
        exact mem_foldl_appendUnique_of_mem xs _ (mem_appendUnique_self acc a)
      · exact mem_foldl_appendUnique_self xs _ h

theorem foldl_appendUnique_eq_of_subset [DecidableEq α] :
    ∀ (l : List α) (acc : List α), (∀ a ∈ l, a ∈ acc) →
      l.foldl appendUnique acc = acc
  | [], _, _ => rfl
  | x :: xs, acc, h => by
      have hx : x ∈ acc := h x (List.mem_cons_self x xs)
      rw [List.foldl_cons, appendUnique_eq_of_mem hx]
      exact foldl_appendUnique_eq_of_subset xs acc
        (fun a ha => h a (List.mem_cons_of_mem x ha))

theorem nodup_foldl_appendUnique [DecidableEq α] :
    ∀ (l : List α) (acc : List α), acc.Nodup →
      (l.foldl appendUnique acc).Nodup
  | [], _, h => h
  | x :: xs, acc, h =>
      nodup_foldl_appendUnique xs (appendUnique acc x) (nodup_appendUnique x h)

theorem foldl_appendUnique_ne_nil [DecidableEq α] :
    ∀ (l : List α) (acc : List α), acc ≠ [] ∨ l ≠ [] →
      l.foldl appendUnique acc ≠ []
  | [], acc, h => by
      rcases h with h | h
      · exact h
      · exact absurd rfl h
  | x :: xs, acc, _ =>
      foldl_appendUnique_ne_nil xs (appendUnique acc x)
        (Or.inl (appendUnique_ne_nil acc x))

theorem mkdirP_files (fs : FS) (p : PyPath) :
    (fs.mkdirP p).files = fs.files := rfl

theorem mkdirP_idem (fs : FS) (p : PyPath) :
    (fs.mkdirP p).mkdirP p = fs.mkdirP p := by
  unfold FS.mkdirP
  simp only [FS.mk.injEq, and_true]
  refine ⟨trivial, ?_⟩
  exact foldl_appendUnique_eq_of_subset p.ancestors
    (p.ancestors.foldl appendUnique fs.dirs)
    (fun a ha => mem_foldl_appendUnique_self p.ancestors fs.dirs ha)

theorem self_mem_ancestors (p : PyPath) (h : p.comps ≠ []) :
    p ∈ p.ancestors := by
  unfold PyPath.ancestors
  have hlen : 0 < p.comps.length := List.length_pos.mpr h
  refine List.mem_map.mpr ⟨p.comps.length - 1, ?_, ?_⟩
  · exact List.mem_range.mpr (by omega)
  · have : p.comps.length - 1 + 1 = p.comps.length := by omega
    rw [this, List.take_length]

theorem mem_dirs_mkdirP (fs : FS) (p : PyPath) (h : p.comps ≠ []) :
    p ∈ (fs.mkdirP p).dirs :=
  mem_foldl_appendUnique_self _ _ (self_mem_ancestors p h)

theorem pathExists_of_mem_dirs {fs : FS} {p : PyPath}
    (h : p ∈ fs.dirs) : fs.pathExists p = true := by
  unfold FS.pathExists
  simp [List.contains, h]

theorem ws_char_cases {c : Char} (h : isPyWS c = true) :
    c = ' ' ∨ c = '\t' ∨ c = '\n' ∨ c = '\r' ∨ c = '\x0b' ∨ c = '\x0c' := by
  have h' := h
  simp only [isPyWS, Bool.or_eq_true, decide_eq_true_eq] at h'
  tauto

theorem zoom_ne_lower_ws {c : Char} (h : isPyWS c = true) :
    ∀ m ∈ zoomL, m ≠ Char.toLower c := by
  intro m hm
  rcases ws_char_cases h with h | h | h | h | h | h <;> subst h <;>
    fin_cases hm <;> decide

theorem infix_map_dropWhile (f : Char → Char) (p : Char → Bool)
    {n : List Char} (hn : n ≠ [])
    (hf : ∀ c, p c = true → ∀ m ∈ n, m ≠ f c) :
    ∀ l : List Char, (n <:+: (l.dropWhile p).map f ↔ n <:+: l.map f)
  | [] => Iff.rfl
  | c :: l => by
      by_cases hc : p c = true
      · rw [List.dropWhile_cons, if_pos hc]
        have step : (n <:+: (c :: l).map f) ↔ n <:+: l.map f := by
          rw [List.map_cons, List.infix_cons_iff]
          constructor
          · rintro (hpre | h)
            · exfalso
              rcases n with _ | ⟨n0, n'⟩
              · exact hn rfl
              · have := (List.cons_prefix_cons.mp hpre).1
                exact hf c hc n0 (List.mem_cons_self n0 n') this
            · exact h
          · exact Or.inr
        rw [step]
        exact infix_map_dropWhile f p hn hf l
      · rw [List.dropWhile_cons, if_neg hc]

theorem infixRev {l₁ l₂ : List Char} :
    l₁.reverse <:+: l₂.reverse ↔ l₁ <:+: l₂ := List.reverse_infix

theorem zoom_infix_lower_strip (l : List Char) :
    zoomL <:+: lowerStr (stripWS l) ↔ zoomL <:+: lowerStr l := by
  have hzn : zoomL ≠ [] := by decide
  have hzr : zoomL.reverse ≠ [] := by decide
  have hf : ∀ c, isPyWS c = true → ∀ m ∈ zoomL, m ≠ Char.toLower c :=
    fun c hc => zoom_ne_lower_ws hc
  have hfr : ∀ c, isPyWS c = true → ∀ m ∈ zoomL.reverse, m ≠ Char.toLower c :=
    fun c hc m hm => hf c hc m (List.mem_reverse.mp hm)
  unfold stripWS lowerStr
  rw [List.map_reverse]
  have h1 : zoomL <:+: (List.map Char.toLower
      (((l.dropWhile isPyWS).reverse.dropWhile isPyWS))).reverse ↔
      zoomL.reverse <:+: List.map Char.toLower
        ((l.dropWhile isPyWS).reverse.dropWhile isPyWS) := by
    conv_lhs => rw [show zoomL = zoomL.reverse.reverse by simp]
    exact infixRev
  rw [h1, infix_map_dropWhile Char.toLower isPyWS hzr hfr, List.map_reverse]
  have h2 : zoomL.reverse <:+: (List.map Char.toLower
      (l.dropWhile isPyWS)).reverse ↔
      zoomL <:+: List.map Char.toLower (l.dropWhile isPyWS) := infixRev
  rw [h2, infix_map_dropWhile Char.toLower isPyWS hzn hf]

theorem containsSeq_lower_strip (l : List Char) :
    containsSeq zoomL (lowerStr (stripWS l)) =
      containsSeq zoomL (lowerStr l) := by
  unfold containsSeq
  exact decide_eq_decide.mpr (zoom_infix_lower_strip l)

theorem ne_nil_of_containsSeq {l : List Char}
    (h : containsSeq zoomL l = true) : l ≠ [] := by
  intro hnil
  subst hnil
  have := of_decide_eq_true h
  have := List.eq_nil_of_infix_nil this
  simp [zoomL] at this

theorem taskRow_eq_spec : ∀ row, taskRow row = taskRecordSpec row := by
  intro row
  rcases row with _ | ⟨r0, rest⟩
  · rfl
  · unfold taskRow taskRecordSpec
    by_cases hz : containsSeq zoomL (lowerStr r0) = true
    · have hz' : containsSeq zoomL (lowerStr (stripWS r0)) = true := by
        rw [containsSeq_lower_strip]
        exact hz
      have hsne : stripWS r0 ≠ [] := by
        have hne := ne_nil_of_containsSeq hz'
        intro h
        apply hne
        simp [lowerStr, h]
      have hr0 : r0 ≠ [] := by
        intro h
        apply hsne
        rw [h]
        rfl
      rcases rest with _ | ⟨r1, rs⟩
      · simp [List.isEmpty_iff, hsne, hz']
      · simp [List.isEmpty_iff, hsne, hz', hr0, hz]
        cases pyInt? r1 <;> simp
    · have hz' : containsSeq zoomL (lowerStr (stripWS r0)) ≠ true := by
        rw [containsSeq_lower_strip]
        exact hz
      rcases rest with _ | ⟨r1, rs⟩
      · by_cases hse : stripWS r0 = [] <;>
          simp [List.isEmpty_iff, hse, hz']
      · by_cases hse : stripWS r0 = [] <;>
          simp [List.isEmpty_iff, hse, hz', hz]

theorem splitWS2_length_le (l : List Char) : (splitWS2 l).length ≤ 3 := by
  unfold splitWS2
  rcases h1 : takeField (dropWS l) with ⟨f1, r1⟩
  rcases h2 : takeField (dropWS r1) with ⟨f2, r2⟩
  by_cases e1 : (dropWS l).isEmpty <;>
    by_cases e2 : (dropWS r1).isEmpty <;>
      by_cases e3 : (dropWS r2).isEmpty <;>
        simp [e1, e2, e3, h1, h2]

theorem psLine_skip_of_not_int (line : List Char)
    (h : pyInt? ((splitWS2 (stripWS line)).headD []) = none) :
    psLine line = none := by
  unfold psLine
  rcases hsp : splitWS2 (stripWS line) with _ | ⟨p0, parts⟩
  · rfl
  · rcases parts with _ | ⟨p1, rest⟩
    · rfl
    · rw [hsp] at h
      simp only [List.headD_cons] at h
      simp [h]

theorem psLine_none_of_short (line : List Char)
    (h : (splitWS2 (stripWS line)).length < 2) : psLine line = none := by
  unfold psLine
  rcases hsp : splitWS2 (stripWS line) with _ | ⟨p0, parts⟩
  · rfl
  · rcases parts with _ | ⟨p1, rest⟩
    · rfl
    · rw [hsp] at h
      simp only [List.length_cons] at h
      omega

theorem psLine_iff (line : List Char) (r : ProcessInfo) :
    psLine line = some r ↔
      ∃ p0 p1 rest, splitWS2 (stripWS line) = p0 :: p1 :: rest ∧
        pyInt? p0 = some r.pid ∧ r.name = p1 ∧ r.command = rest.head? ∧
        containsSeq zoomL
          (lowerStr (List.intercalate [' '] (p1 :: rest))) = true := by
  unfold psLine
  rcases hsp : splitWS2 (stripWS line) with _ | ⟨p0, parts⟩
  · simp
  · rcases parts with _ | ⟨p1, rest⟩
    · simp
    · rcases hint : pyInt? p0 with _ | pid
      · constructor
        · intro h
          simp [hint] at h
        · rintro ⟨q0, q1, qrest, heq, hqint, hname, hcmd, hcz⟩
          simp only [List.cons.injEq] at heq
          obtain ⟨h0, h1, h2⟩ := heq
          subst h0
          rw [hint] at hqint
          cases hqint
      · by_cases hzz : containsSeq zoomL
            (lowerStr (List.intercalate [' '] (p1 :: rest))) = true
        · constructor
          · intro h
            simp only [hint, hzz, if_true] at h
            simp only [Option.some.injEq] at h
            subst h
            exact ⟨p0, p1, rest, rfl, hint, rfl, rfl, hzz⟩
          · rintro ⟨q0, q1, qrest, heq, hqint, hname, hcmd, hcz⟩
            simp only [List.cons.injEq] at heq
            obtain ⟨h0, h1, h2⟩ := heq
            subst h0; subst h1; subst h2
            rw [hint] at hqint
            simp only [Option.some.injEq] at hqint
            simp only [hint, hzz, if_true, Option.some.injEq]
            cases r
            simp_all
        · constructor
          · intro h
            simp [hint, hzz] at h
          · rintro ⟨q0, q1, qrest, heq, hqint, hname, hcmd, hcz⟩
            simp only [List.cons.injEq] at heq
            obtain ⟨h0, h1, h2⟩ := heq
            subst h1; subst h2
            exact absurd hcz hzz

theorem isPrefixOfP_iff {p q : PyPath} :
    p.isPrefixOfP q = true ↔ p.absolute = q.absolute ∧ p.comps <+: q.comps := by
  unfold PyPath.isPrefixOfP
  simp only [Bool.and_eq_true, beq_iff_eq]
  constructor
  · rintro ⟨h1, h2⟩
    exact ⟨h1, List.isPrefixOf_iff_prefix.mp h2⟩
  · rintro ⟨h1, h2⟩
    exact ⟨h1, List.isPrefixOf_iff_prefix.mpr h2⟩

theorem isPrefixOfP_refl (p : PyPath) : p.isPrefixOfP p = true :=
  isPrefixOfP_iff.mpr ⟨rfl, List.prefix_refl _⟩

theorem isPrefixOfP_append_cases {t d : PyPath} {rest : List String}
    (h : t.isPrefixOfP ⟨d.absolute, d.comps ++ rest⟩ = true) :
    t.isPrefixOfP d = true ∨ d.isPrefixOfP t = true := by
  obtain ⟨habs, hpre⟩ := isPrefixOfP_iff.mp h
  have hd : d.comps <+: d.comps ++ rest := List.prefix_append _ _
  rcases List.prefix_or_prefix_of_prefix hpre hd with h1 | h1
  · exact Or.inl (isPrefixOfP_iff.mpr ⟨habs, h1⟩)
  · exact Or.inr (isPrefixOfP_iff.mpr ⟨habs.symm, h1⟩)

theorem replacePrefix_of_prefixed (t d : PyPath) (suf : List String) :
    replacePrefix t d ⟨t.absolute, t.comps ++ suf⟩ =
      ⟨d.absolute, d.comps ++ suf⟩ := by
  unfold replacePrefix
  have hc : t.isPrefixOfP ⟨t.absolute, t.comps ++ suf⟩ = true := by
    apply isPrefixOfP_iff.mpr
    exact ⟨rfl, List.prefix_append _ _⟩
  rw [if_pos hc]
  simp [List.drop_left]

theorem replacePrefix_of_not_prefixed {t q : PyPath} (d : PyPath)
    (h : t.isPrefixOfP q = false) : replacePrefix t d q = q := by
  unfold replacePrefix
  rw [if_neg (by simp [h])]

theorem not_prefixOfP_replacePrefix {t d : PyPath}
    (hTD : t.isPrefixOfP d = false) (hDT : d.isPrefixOfP t = false)
    (q : PyPath) : t.isPrefixOfP (replacePrefix t d q) = false := by
  cases hq : t.isPrefixOfP q with
  | false => rw [replacePrefix_of_not_prefixed d hq, hq]
  | true =>
      unfold replacePrefix
      rw [if_pos hq]
      apply Bool.eq_false_iff.mpr
      intro htrue
      rcases isPrefixOfP_append_cases htrue with h | h
      · rw [hTD] at h
        cases h
      · rw [hDT] at h
        cases h

theorem move_target_gone {fs : FS} {t d : PyPath}
    (hTD : t.isPrefixOfP d = false) (hDT : d.isPrefixOfP t = false) :
    (fs.move t d).pathExists t = false := by
  unfold FS.move FS.pathExists
  apply Bool.or_eq_false_iff.mpr
  constructor
  · simp only [List.contains, List.elem_eq_mem, decide_eq_false_iff_not]
    intro hmem
    obtain ⟨q, hq, hrepl⟩ := List.mem_map.mp hmem
    have := not_prefixOfP_replacePrefix hTD hDT q
    rw [hrepl] at this
    rw [isPrefixOfP_refl t] at this
    cases this
  · simp only [List.any_eq_false]
    intro x hx
    obtain ⟨f0, hf0, hrepl⟩ := List.mem_map.mp hx
    have := not_prefixOfP_replacePrefix hTD hDT f0.1
    intro hcon
    rw [← hrepl] at hcon
    simp only at hcon
    rw [this] at hcon
    cases hcon

theorem move_file_mem {fs : FS} {t : PyPath} (d : PyPath)
    {suf : List String} {content : String}
    (h : (⟨t.absolute, t.comps ++ suf⟩, content) ∈ fs.files) :
    (⟨d.absolute, d.comps ++ suf⟩, content) ∈ (fs.move t d).files := by
  unfold FS.move
  have := List.mem_map_of_mem
    (fun f : PyPath × String => (replacePrefix t d f.1, f.2)) h
  simpa [replacePrefix_of_prefixed] using this

theorem backup_and_remove_dry_fs (t b : PyPath) (c : Clock) (fs : FS) :
    (backup_and_remove t b c true fs).1 = fs := by
  unfold backup_and_remove
  split
  · rfl
  · rfl

theorem backup_loop_dry_fs (b : PyPath) (c : Clock) :
    ∀ (targets : List PyPath) (acc : FS × List Msg),
      (backupLoop targets b c true acc).1 = acc.1
  | [], _ => rfl
  | t :: ts, acc => by
      unfold backupLoop
      rw [List.foldl_cons]
      rw [show ∀ a, List.foldl
          (fun acc t =>
            let (fs', ms) := backup_and_remove t b c true acc.1
            (fs', acc.2 ++ ms)) a ts = backupLoop ts b c true a
        from fun a => rfl]
      rw [backup_loop_dry_fs b c ts]
      exact backup_and_remove_dry_fs t b c acc.1

theorem detect_system_cases {raw s : String}
    (h : detect_system raw = Except.ok s) :
    s = "windows" ∨ s = "macos" ∨ s = "linux" := by
  unfold detect_system at h
  rcases hl : SUPPORTED_SYSTEMS.lookup raw with _ | v
  · simp [hl] at h
  · simp only [hl, Except.ok.injEq] at h
    subst h
    obtain ⟨l₁, l₂, hdec, -⟩ := List.lookup_eq_some_iff.mp hl
    have hmem : (raw, v) ∈ SUPPORTED_SYSTEMS := by
      rw [hdec]
      exact List.mem_append_right _ (List.mem_cons_self _ _)
    simp only [SUPPORTED_SYSTEMS, List.mem_cons, List.not_mem_nil, or_false,
      Prod.mk.injEq] at hmem
    rcases hmem with ⟨-, h2⟩ | ⟨-, h2⟩ | ⟨-, h2⟩ <;> tauto

theorem zoom_paths_ok_of_supported {s : String}
    (h : s = "windows" ∨ s = "macos" ∨ s = "linux")
    (env : List (String × String)) (home : PyPath) :
    ∃ l, zoom_paths s env home = Except.ok l := by
  rcases h with h | h | h <;> subst h <;> simp [zoom_paths]

theorem fullStamp_ne_empty (c : Clock) : fullStamp c ≠ "" := by
  intro h
  have hlen : (fullStamp c).length = 0 := by
    rw [h]
    rfl
  unfold fullStamp at hlen
  simp only [String.length_append] at hlen
  have hdash : ("-" : String).length = 1 := rfl
  omega

/-! Section: Claim theorems -/

/-- Claim C4: for each platform in {windows, macos, linux}, `zoom_paths`
is a pure function of its three inputs returning a non-empty,
duplicate-free, order-preserving list; with the environment empty the
windows catalog falls back to the six entries under
`home/AppData/Roaming` and `home/AppData/Local`; with
`APPDATA=/tmp/roam` and `LOCALAPPDATA=/tmp/local` it lists
`/tmp/roam/Zoom`, `/tmp/local/Zoom`, `/tmp/local/ZoomOpener` among its
six entries; macos yields seven entries under `home/Library` and linux
five entries under `home`. -/
theorem zoom_paths_catalog :
    (∀ (env : List (String × String)) (home : PyPath),
      ∃ l, zoom_paths "windows" env home = Except.ok l ∧
        l.Nodup ∧ l ≠ []) ∧
    (∀ (env : List (String × String)) (home : PyPath),
      ∃ l, zoom_paths "macos" env home = Except.ok l ∧
        l.Nodup ∧ l ≠ []) ∧
    (∀ (env : List (String × String)) (home : PyPath),
      ∃ l, zoom_paths "linux" env home = Except.ok l ∧
        l.Nodup ∧ l ≠ []) ∧
    zoom_paths "windows" [] homeTester = Except.ok
      [⟨true, ["home", "u", "AppData", "Roaming", "Zoom"]⟩,
       ⟨true, ["home", "u", "AppData", "Local", "Zoom"]⟩,
       ⟨true, ["home", "u", "AppData", "Roaming", "zoom.us"]⟩,
       ⟨true, ["home", "u", "AppData", "Local", "zoom.us"]⟩,
       ⟨true, ["home", "u", "AppData", "Local", "ZoomOpener"]⟩,
       ⟨true, ["home", "u", "AppData", "Local", "Temp", "zoom"]⟩] ∧
    zoom_paths "windows" winEnv homeTester = Except.ok
      [⟨true, ["tmp", "roam", "Zoom"]⟩,
       ⟨true, ["tmp", "local", "Zoom"]⟩,
       ⟨true, ["tmp", "roam", "zoom.us"]⟩,
       ⟨true, ["tmp", "local", "zoom.us"]⟩,
       ⟨true, ["tmp", "local", "ZoomOpener"]⟩,
       ⟨true, ["tmp", "local", "Temp", "zoom"]⟩] ∧
    zoom_paths "macos" [] homeTester = Except.ok
      [⟨true, ["home", "u", "Library", "Application Support", "zoom.us"]⟩,
       ⟨true, ["home", "u", "Library", "Application Support", "ZoomOpener"]⟩,
       ⟨true, ["home", "u", "Library", "Preferences", "us.zoom.xos.plist"]⟩,
       ⟨true, ["home", "u", "Library", "Caches", "us.zoom.xos"]⟩,
       ⟨true, ["home", "u", "Library", "Logs", "zoom.us"]⟩,
       ⟨true, ["home", "u", "Library", "WebKit", "us.zoom.xos"]⟩,
       ⟨true,
        ["home", "u", "Library", "Cookies", "us.zoom.xos.binarycookies"]⟩] ∧
    zoom_paths "linux" [] homeTester = Except.ok
      [⟨true, ["home", "u", ".config", "zoom"]⟩,
       ⟨true, ["home", "u", ".cache", "zoom"]⟩,
       ⟨true, ["home", "u", ".zoom"]⟩,
       ⟨true, ["home", "u", ".var", "app", "us.zoom.Zoom"]⟩,
       ⟨true, ["home", "u", ".cache", "ZoomOpener"]⟩] := by
  refine ⟨?_, ?_, ?_, by rfl, by rfl, by rfl, by rfl⟩
  · intro env home
    unfold zoom_paths
    rw [if_pos rfl]
    refine ⟨_, rfl, ?_, ?_⟩
    · exact nodup_foldl_appendUnique _ _ List.nodup_nil
    · exact foldl_appendUnique_ne_nil _ _ (Or.inr (by simp))
  · intro env home
    unfold zoom_paths
    rw [if_neg (by decide), if_pos rfl]
    refine ⟨_, rfl, ?_, ?_⟩
    · exact nodup_foldl_appendUnique _ _ List.nodup_nil
    · exact foldl_appendUnique_ne_nil _ _ (Or.inr (by simp))
  · intro env home
    unfold zoom_paths
    rw [if_neg (by decide), if_neg (by decide), if_pos rfl]
    refine ⟨_, rfl, ?_, ?_⟩
    · exact nodup_foldl_appendUnique _ _ List.nodup_nil
    · exact foldl_appendUnique_ne_nil _ _ (Or.inr (by simp))

/-- Claim C7: `zoom_paths` on any platform identifier outside
{windows, macos, linux} fails with the unsupported-platform error; it
never returns normally, in particular never an empty list. -/
theorem zoom_paths_unsupported :
    ∀ (system_name : String) (env : List (String × String))
      (home : PyPath),
      system_name ≠ "windows" → system_name ≠ "macos" →
      system_name ≠ "linux" →
      zoom_paths system_name env home =
        Except.error (ZoomErr.unsupported system_name) := by
  intro s env home h1 h2 h3
  unfold zoom_paths
  rw [if_neg h1, if_neg h2, if_neg h3]

/-- Witness for C7 at the concrete platform name `"freebsd"`. -/
theorem zoom_paths_unsupported_witness :
    zoom_paths "freebsd" [] homeTester =
      Except.error (ZoomErr.unsupported "freebsd") :=
  zoom_paths_unsupported "freebsd" [] homeTester (by decide) (by decide)
    (by decide)

/-- Claim C8: `kill_processes` with `dry_run = False` attempts termination
of every record in input order (the pid list of `os.kill` calls is the
full input pid sequence); a not-found outcome is reported as skipped
and a denied outcome is reported, and in every case the loop continues
through all records (one report per record); with `dry_run = True` no
termination is attempted and the intended action is reported for every
record unconditionally. -/
theorem kill_processes_spec :
    ∀ (procs : List ProcessInfo) (outcome : Int → KillOutcome),
      kill_processes procs true outcome =
        (procs.map (fun p => Msg.wouldTerminate p.pid p.name), []) ∧
      (kill_processes procs false outcome).2 =
        procs.map (fun p => p.pid) ∧
      (kill_processes procs false outcome).1 =
        procs.map (fun p =>
          match outcome p.pid with
          | .ok => Msg.terminated p.pid p.name
          | .notFound => Msg.notFoundSkipping p.pid
          | .permDenied e => Msg.permissionDenied p.pid e) := by
  intro procs outcome
  induction procs with
  | nil => exact ⟨rfl, rfl, rfl⟩
  | cons p ps ih =>
      obtain ⟨ih1, ih2, ih3⟩ := ih
      refine ⟨?_, ?_, ?_⟩
      · simp [kill_processes, ih1]
      · simp only [kill_processes, List.map_cons]
        cases outcome p.pid <;> simp [ih2]
      · simp only [kill_processes, List.map_cons]
        cases outcome p.pid <;> simp [ih3]

/-- Claim C9: when the timestamp-named directory for the current second
already exists under the backup root, `timestamped_backup_dir` does not
fail and returns that same directory without creating a distinct one:
running it twice with the same clock yields the same directory and
leaves the filesystem of the first run untouched, and the directory it
names exists afterwards. -/
theorem timestamped_backup_dir_reuse :
    ∀ (root : PyPath) (clock : Clock) (fs : FS),
      ((timestamped_backup_dir root clock
          (timestamped_backup_dir root clock fs).2).1 =
        (timestamped_backup_dir root clock fs).1) ∧
      ((timestamped_backup_dir root clock
          (timestamped_backup_dir root clock fs).2).2 =
        (timestamped_backup_dir root clock fs).2) ∧
      (((timestamped_backup_dir root clock fs).2).pathExists
          ((timestamped_backup_dir root clock fs).1) = true) := by
  intro root clock fs
  have hcomps : (root.join (fullStamp clock)).comps ≠ [] := by
    unfold PyPath.join
    rw [if_neg (fullStamp_ne_empty clock)]
    simp
  refine ⟨rfl, ?_, ?_⟩
  · exact mkdirP_idem fs (root.join (fullStamp clock))
  · exact pathExists_of_mem_dirs (mem_dirs_mkdirP fs _ hcomps)

/-- Claim C5: `parse_tasklist_output` reads its input as comma-separated
quoted-field records with the display name in field 0 and the process
id in field 1; it is a total function (never raises), and it returns a
record for a row exactly when the name field is non-empty, contains
`"zoom"` case-insensitively, and the id field is present and parses as
an integer — `taskRecordSpec` states those three conditions on the raw
fields, and the output is its `filterMap` over the parsed rows, in
order. -/
theorem parse_tasklist_output_spec :
    ∀ output, parse_tasklist_output output =
      (csvRows output).filterMap taskRecordSpec := by
  intro output
  unfold parse_tasklist_output
  have h : taskRow = taskRecordSpec := funext taskRow_eq_spec
  rw [h]

/-- Claim C2, counterexample: the line `"-5 zoom"` has a first field that
is not a valid non-negative integer, yet `parse_ps_output` does not
skip it: Python's `int` accepts the sign and the parser returns a
record with the negative id. -/
theorem parse_ps_output_negative_pid :
    parse_ps_output (String.toList "-5 zoom") =
      [{ pid := -5, name := String.toList "zoom", command := none }] ∧
    (-5 : Int) < 0 := by
  constructor
  · decide
  · decide

/-- Claim C2, amended: `parse_ps_output` never raises and processes its
input line by line in order (`filterMap` over the split lines); each
line is split into at most three whitespace-delimited fields; a line
whose first field does not parse with Python's `int` (sign permitted —
not merely non-negative integers) is silently skipped; and a line
yields a record exactly when it has at least two fields, its first
field parses as the id, and `"zoom"` occurs case-insensitively in the
space-join of the remaining fields, the record carrying that id, the
second field as name, and the optional third field as command line. -/
theorem parse_ps_output_spec :
    (∀ output, parse_ps_output output =
      (pylines output).filterMap psLine) ∧
    (∀ line, (splitWS2 (stripWS line)).length ≤ 3) ∧
    (∀ line, pyInt? ((splitWS2 (stripWS line)).headD []) = none →
      psLine line = none) ∧
    (∀ line r, psLine line = some r ↔
      ∃ p0 p1 rest, splitWS2 (stripWS line) = p0 :: p1 :: rest ∧
        pyInt? p0 = some r.pid ∧ r.name = p1 ∧ r.command = rest.head? ∧
        containsSeq zoomL
          (lowerStr (List.intercalate [' '] (p1 :: rest))) = true) := by
  refine ⟨fun _ => rfl, fun line => splitWS2_length_le (stripWS line),
    psLine_skip_of_not_int, psLine_iff⟩

/-- Witness for C2 at concrete lines: a non-integer first field is
skipped, and a matching line yields its record. -/
theorem parse_ps_output_spec_witness :
    psLine (String.toList "x zoom") = none ∧
    psLine (String.toList "12 Zoom grid") =
      some { pid := 12, name := String.toList "Zoom",
             command := some (String.toList "grid") } := by
  constructor
  · exact parse_ps_output_spec.2.2.1 (String.toList "x zoom") (by decide)
  · exact (parse_ps_output_spec.2.2.2 (String.toList "12 Zoom grid") _).mpr
      ⟨String.toList "12", String.toList "Zoom", [String.toList "grid"],
        by decide, by decide, by decide, by decide, by decide⟩

/-- Claim C10: `parse_ps_output` yields no record for a line with fewer
than two whitespace-separated fields; the output is the in-order
`filterMap` of the per-line function, which returns `none` on every
such line. -/
theorem parse_ps_output_short_line :
    (∀ output, parse_ps_output output =
      (pylines output).filterMap psLine) ∧
    (∀ line, (splitWS2 (stripWS line)).length < 2 → psLine line = none) := by
  exact ⟨fun _ => rfl, psLine_none_of_short⟩

/-- Witness for C10: the line `"5"` is only a valid numeric id, and it
is skipped. -/
theorem parse_ps_output_short_line_witness :
    psLine (String.toList "5") = none ∧
    pyInt? (String.toList "5") = some 5 ∧
    parse_ps_output (String.toList "5") = [] := by
  refine ⟨parse_ps_output_short_line.2 (String.toList "5") (by decide),
    by decide, by decide⟩

/-- Claim C3: `backup_and_remove` in live mode.  (a) A missing target is a
silent no-op.  (b) An existing target whose destination
`backupDir / target.name` is free is renamed there: the run reports the
move, every file under the target reappears with its content under the
destination with the same relative path, and (for a target that is not
an ancestor or descendant of the destination) the target no longer
exists.  (c) When the destination already exists, the destination used
instead is the re-parsed `f"{destination}-{HHMMSS}"`, the zero-padded
time-of-day appended to the name. -/
theorem backup_and_remove_spec :
    ∀ (target backup_root : PyPath) (clock : Clock) (fs : FS),
      (fs.pathExists target = false →
        backup_and_remove target backup_root clock false fs = (fs, [])) ∧
      (fs.pathExists target = true →
        fs.pathExists (backup_root.join target.name) = false →
        (backup_and_remove target backup_root clock false fs =
          (fs.move target (backup_root.join target.name),
           [Msg.moving target (backup_root.join target.name)])) ∧
        (∀ (suf : List String) (content : String),
          (⟨target.absolute, target.comps ++ suf⟩, content) ∈ fs.files →
          (⟨(backup_root.join target.name).absolute,
            (backup_root.join target.name).comps ++ suf⟩, content) ∈
            (backup_and_remove target backup_root clock false fs).1.files) ∧
        (target.isPrefixOfP (backup_root.join target.name) = false →
         (backup_root.join target.name).isPrefixOfP target = false →
          (backup_and_remove target backup_root clock false
            fs).1.pathExists target = false)) ∧
      (fs.pathExists target = true →
        fs.pathExists (backup_root.join target.name) = true →
        backup_and_remove target backup_root clock false fs =
          (fs.move target (PyPath.ofString
            ((backup_root.join target.name).toString ++ "-" ++
              hmsStamp clock)),
           [Msg.moving target (PyPath.ofString
            ((backup_root.join target.name).toString ++ "-" ++
              hmsStamp clock))])) := by
  intro target backup_root clock fs
  refine ⟨?_, ?_, ?_⟩
  · intro hmiss
    unfold backup_and_remove
    rw [if_pos (by simp [hmiss])]
  · intro hex hfree
    have heq : backup_and_remove target backup_root clock false fs =
        (fs.move target (backup_root.join target.name),
         [Msg.moving target (backup_root.join target.name)]) := by
      unfold backup_and_remove
      rw [if_neg (by simp [hex])]
      simp [hfree]
    refine ⟨heq, ?_, ?_⟩
    · intro suf content hmem
      rw [heq]
      exact move_file_mem (backup_root.join target.name) hmem
    · intro hTD hDT
      rw [heq]
      exact move_target_gone hTD hDT
  · intro hex hcol
    unfold backup_and_remove
    rw [if_neg (by simp [hex])]
    simp [hcol]

/-- Witness for C3 at the end-to-end scenario: a missing target is a
no-op; a directory `Zoom` holding `data` with content `sample` moves to
`back/Zoom/data` and the target is gone; a colliding destination gets
the `-HHMMSS` suffix. -/
theorem backup_and_remove_spec_witness :
    (backup_and_remove ⟨true, ["gone"]⟩ ⟨true, ["back"]⟩
      ⟨2024, 1, 31, 23, 59, 1⟩ false fsEmpty = (fsEmpty, [])) ∧
    ((⟨true, ["back", "Zoom", "data"]⟩, "sample") ∈
      (backup_and_remove ⟨true, ["home", "Zoom"]⟩ ⟨true, ["back"]⟩
        ⟨2024, 1, 31, 23, 59, 1⟩ false
        ⟨[(⟨true, ["home", "Zoom", "data"]⟩, "sample")], []⟩).1.files) ∧
    ((backup_and_remove ⟨true, ["home", "Zoom"]⟩ ⟨true, ["back"]⟩
        ⟨2024, 1, 31, 23, 59, 1⟩ false
        ⟨[(⟨true, ["home", "Zoom", "data"]⟩, "sample")],
         []⟩).1.pathExists ⟨true, ["home", "Zoom"]⟩ = false) ∧
    (backup_and_remove ⟨true, ["home", "Zoom"]⟩ ⟨true, ["back"]⟩
        ⟨2024, 1, 31, 23, 59, 1⟩ false
        ⟨[(⟨true, ["home", "Zoom", "data"]⟩, "sample")],
         [⟨true, ["back", "Zoom"]⟩]⟩ =
      (⟨[(⟨true, ["back", "Zoom-235901", "data"]⟩, "sample")],
        [⟨true, ["back", "Zoom"]⟩]⟩,
       [Msg.moving ⟨true, ["home", "Zoom"]⟩
         ⟨true, ["back", "Zoom-235901"]⟩])) := by
  refine ⟨?_, ?_, ?_, ?_⟩
  · exact (backup_and_remove_spec ⟨true, ["gone"]⟩ ⟨true, ["back"]⟩
      ⟨2024, 1, 31, 23, 59, 1⟩ fsEmpty).1 (by decide)
  · exact ((backup_and_remove_spec ⟨true, ["home", "Zoom"]⟩
      ⟨true, ["back"]⟩ ⟨2024, 1, 31, 23, 59, 1⟩
      ⟨[(⟨true, ["home", "Zoom", "data"]⟩, "sample")], []⟩).2.1
        (by decide) (by decide)).2.1 ["data"] "sample" (by decide)
  · exact ((backup_and_remove_spec ⟨true, ["home", "Zoom"]⟩
      ⟨true, ["back"]⟩ ⟨2024, 1, 31, 23, 59, 1⟩
      ⟨[(⟨true, ["home", "Zoom", "data"]⟩, "sample")], []⟩).2.1
        (by decide) (by decide)).2.2 (by decide) (by decide)
  · rw [(backup_and_remove_spec ⟨true, ["home", "Zoom"]⟩
      ⟨true, ["back"]⟩ ⟨2024, 1, 31, 23, 59, 1⟩
      ⟨[(⟨true, ["home", "Zoom", "data"]⟩, "sample")],
       [⟨true, ["back", "Zoom"]⟩]⟩).2.2 (by decide) (by decide)]
    decide

theorem perform_reset_detect_err {cfg : Config} {e : ZoomErr}
    (hdet : detect_system cfg.platformRaw = Except.error e)
    (dry_run : Bool) (br : Option PyPath) (skip : Bool) (fs : FS) :
    perform_reset cfg dry_run br skip fs =
      ⟨Except.error e, fs, [], []⟩ := by
  unfold perform_reset
  rw [hdet]

theorem perform_reset_kill_err {cfg : Config} {s : String} {e : ZoomErr}
    {dry_run skip : Bool}
    (hdet : detect_system cfg.platformRaw = Except.ok s)
    (hK : killPhase cfg s dry_run skip = Except.error e)
    (br : Option PyPath) (fs : FS) :
    perform_reset cfg dry_run br skip fs =
      ⟨Except.error e, fs, [Msg.detected s], []⟩ := by
  unfold perform_reset
  rw [hdet]
  simp only [hK]

theorem perform_reset_ok_eq {cfg : Config} {s : String}
    {dry_run skip : Bool} {km : List Msg} {att : List Int}
    {l : List PyPath}
    (hdet : detect_system cfg.platformRaw = Except.ok s)
    (hK : killPhase cfg s dry_run skip = Except.ok (km, att))
    (hl : zoom_paths s cfg.env cfg.home = Except.ok l)
    (br : Option PyPath) (fs : FS) :
    perform_reset cfg dry_run br skip fs =
      ⟨Except.ok (),
       (backupLoop l
         (timestamped_backup_dir (ensure_backup_root br cfg.home fs).1
           cfg.clock (ensure_backup_root br cfg.home fs).2).1
         cfg.clock dry_run
         ((timestamped_backup_dir (ensure_backup_root br cfg.home fs).1
           cfg.clock (ensure_backup_root br cfg.home fs).2).2, [])).1,
       [Msg.detected s] ++ km ++
         (backupLoop l
           (timestamped_backup_dir (ensure_backup_root br cfg.home fs).1
             cfg.clock (ensure_backup_root br cfg.home fs).2).1
           cfg.clock dry_run
           ((timestamped_backup_dir (ensure_backup_root br cfg.home fs).1
             cfg.clock (ensure_backup_root br cfg.home fs).2).2, [])).2 ++
         [Msg.resetComplete],
       att⟩ := by
  unfold perform_reset
  rw [hdet]
  simp only [hK, hl]

/-- Claim C1, counterexample: a dry run is not mutation-free.  On a Linux
configuration with an empty filesystem (processes skipped), the run
succeeds and still creates the backup root and the timestamped backup
directory, so the filesystem after `perform_reset(dry_run=True)`
differs from the one before. -/
theorem perform_reset_dry_run_mutates :
    (perform_reset cfgLinux true none true fsEmpty).fs =
      ⟨[], [⟨true, ["home"]⟩, ⟨true, ["home", "u"]⟩,
            ⟨true, ["home", "u", ".zoom-reset-backups"]⟩,
            ⟨true,
             ["home", "u", ".zoom-reset-backups", "20240131-235901"]⟩]⟩ ∧
    (perform_reset cfgLinux true none true fsEmpty).fs ≠ fsEmpty := by
  refine ⟨by decide, by decide⟩

/-- Claim C1, amended: a dry run's only filesystem effect is creating the
backup root and the timestamped backup directory.  For every
configuration: the file entries are untouched; when the run succeeds
the final filesystem is exactly the input plus those two directory
creations; when the run fails fatally the filesystem is fully
untouched.  `backup_and_remove` itself performs no mutation in dry-run
mode, and only descriptive reports are produced for the catalog
entries. -/
theorem perform_reset_dry_run_frame :
    ∀ (cfg : Config) (backup_root : Option PyPath) (skip : Bool) (fs : FS),
      ((perform_reset cfg true backup_root skip fs).fs.files = fs.files) ∧
      (exceptOk (perform_reset cfg true backup_root skip fs).result =
          true →
        (perform_reset cfg true backup_root skip fs).fs =
          (timestamped_backup_dir
            (ensure_backup_root backup_root cfg.home fs).1 cfg.clock
            (ensure_backup_root backup_root cfg.home fs).2).2) ∧
      (exceptOk (perform_reset cfg true backup_root skip fs).result =
          false →
        (perform_reset cfg true backup_root skip fs).fs = fs) := by
  intro cfg br skip fs
  rcases hdet : detect_system cfg.platformRaw with e | s
  · rw [perform_reset_detect_err hdet true br skip fs]
    refine ⟨rfl, ?_, fun _ => rfl⟩
    intro h
    simp [exceptOk] at h
  · rcases hK : killPhase cfg s true skip with e | pair
    · rw [perform_reset_kill_err hdet hK br fs]
      refine ⟨rfl, ?_, fun _ => rfl⟩
      intro h
      simp [exceptOk] at h
    · obtain ⟨kM, att⟩ := pair
      obtain ⟨l, hl⟩ :=
        zoom_paths_ok_of_supported (detect_system_cases hdet) cfg.env
          cfg.home
      rw [perform_reset_ok_eq hdet hK hl br fs]
      have hloop := backup_loop_dry_fs
        (timestamped_backup_dir (ensure_backup_root br cfg.home fs).1
          cfg.clock (ensure_backup_root br cfg.home fs).2).1
        cfg.clock l
        ((timestamped_backup_dir (ensure_backup_root br cfg.home fs).1
          cfg.clock (ensure_backup_root br cfg.home fs).2).2, [])
      refine ⟨?_, ?_, ?_⟩
      · exact (congrArg FS.files hloop).trans rfl
      · intro _
        exact hloop
      · intro h
        simp [exceptOk] at h

/-- Witness for C1 at concrete configurations: a successful Linux dry
run whose filesystem keeps its files and gains exactly the two backup
directories, and a failed run that leaves the filesystem untouched. -/
theorem perform_reset_dry_run_frame_witness :
    ((perform_reset cfgLinux true none true fsEmpty).fs.files =
      fsEmpty.files) ∧
    ((perform_reset cfgLinux true none true fsEmpty).fs =
      (timestamped_backup_dir
        (ensure_backup_root none cfgLinux.home fsEmpty).1 cfgLinux.clock
        (ensure_backup_root none cfgLinux.home fsEmpty).2).2) ∧
    ((perform_reset { cfgLinux with platformRaw := "Plan9" } true none
        true fsEmpty).fs = fsEmpty) :=
  ⟨(perform_reset_dry_run_frame cfgLinux none true fsEmpty).1,
   (perform_reset_dry_run_frame cfgLinux none true fsEmpty).2.1
     (by decide),
   (perform_reset_dry_run_frame { cfgLinux with platformRaw := "Plan9" }
     none true fsEmpty).2.2 (by decide)⟩

/-- Claim C6: detecting an unsupported platform halts the run before any
action at all (filesystem untouched, nothing killed, nothing printed);
a failing process-listing command (when the kill phase was requested)
halts after the detection message but before any catalog path is
touched and before any backup directory is created; both failures
surface as a non-zero exit code (2, from `parser.error`) while a
successful run exits 0. -/
theorem orchestrator_fatal_ordering :
    ∀ (cfg : Config) (dry_run : Bool) (backup_root : Option PyPath)
      (skip : Bool) (fs : FS),
      (∀ e, detect_system cfg.platformRaw = Except.error e →
        perform_reset cfg dry_run backup_root skip fs =
          ⟨Except.error e, fs, [], []⟩) ∧
      (∀ s, detect_system cfg.platformRaw = Except.ok s → skip = false →
        cfg.listingFails = true →
        perform_reset cfg dry_run backup_root skip fs =
          ⟨Except.error ZoomErr.listingFailed, fs, [Msg.detected s],
           []⟩) ∧
      ((main cfg dry_run backup_root skip fs).1 =
        if exceptOk (perform_reset cfg dry_run backup_root skip fs).result
        then 0 else 2) ∧
      (exceptOk (perform_reset cfg dry_run backup_root skip fs).result =
          false →
        (main cfg dry_run backup_root skip fs).1 ≠ 0) := by
  intro cfg dry_run br skip fs
  refine ⟨?_, ?_, ?_, ?_⟩
  · intro e he
    exact perform_reset_detect_err he dry_run br skip fs
  · intro s hs hskip hfail
    have hkp : killPhase cfg s dry_run skip = Except.error
        ZoomErr.listingFailed := by
      unfold killPhase list_zoom_processes
      rw [hskip, if_neg (by simp), if_pos (by simp [hfail])]
    exact perform_reset_kill_err hs hkp br fs
  · unfold main
    rcases hres : (perform_reset cfg dry_run br skip fs).result with e | u
    · simp [exceptOk, hres]
    · simp [exceptOk, hres]
  · intro h
    unfold main
    rcases hres : (perform_reset cfg dry_run br skip fs).result with e | u
    · simp [exceptOk, hres]
    · rw [hres] at h
      simp [exceptOk] at h

/-- Witness for C6: the unsupported platform `"Plan9"` halts untouched;
a Linux run with a failing listing command halts after detection with
the filesystem untouched; the failed run's exit code is non-zero and a
successful dry run exits 0. -/
theorem orchestrator_fatal_ordering_witness :
    (perform_reset { cfgLinux with platformRaw := "Plan9" } false none
        true fsEmpty =
      ⟨Except.error (ZoomErr.unsupported "Plan9"), fsEmpty, [], []⟩) ∧
    (perform_reset { cfgLinux with listingFails := true } false none
        false fsEmpty =
      ⟨Except.error ZoomErr.listingFailed, fsEmpty,
       [Msg.detected "linux"], []⟩) ∧
    ((main { cfgLinux with platformRaw := "Plan9" } false none true
        fsEmpty).1 ≠ 0) ∧
    ((main cfgLinux false none true fsEmpty).1 = 0) := by
  refine ⟨?_, ?_, ?_, ?_⟩
  · exact (orchestrator_fatal_ordering _ false none true fsEmpty).1
      (ZoomErr.unsupported "Plan9") (by rfl)
  · exact (orchestrator_fatal_ordering _ false none false fsEmpty).2.1
      "linux" (by rfl) rfl (by rfl)
  · exact (orchestrator_fatal_ordering _ false none true fsEmpty).2.2.2
      (by decide)
  · rw [(orchestrator_fatal_ordering cfgLinux false none true
      fsEmpty).2.2.1]
    decide

end ZoomReset
